import Mathlib

/-!
Verification development for a terminal modal text editor written in Rust.

The data model and operations below are a shallow embedding of the
repository's source files:
  * `src/editor/view/line.rs`    — grapheme fragments and lines,
  * `src/editor/view/buffer.rs`  — the text buffer and its mutations,
  * `src/editor/view/search.rs`  — the incremental-search helper state,
  * `src/editor/view/vim_mode.rs`— the vim-mode colon-command machine,
  * `src/editor/view.rs`         — the cursor/viewport engine.

Rust strings are embedded as `List Char` (one `Char` per grapheme cluster;
the repository's buffers treat each fragment as one cluster).  `usize`
arithmetic uses `Nat`; Rust's `saturating_sub` is `Nat` subtraction, which
already saturates at zero.  Fallible operations return `Option`.

A few helpers are called by the sources but their definitions are not part
of the checked-in sources (they live in a different revision of the crate);
those are modelled from the specification and are marked
`Modelled from the spec:` in their doc comments.
-/

namespace TextEditor

/-- Render width of a grapheme cluster (line.rs `GraphemeWidth`): half = one
terminal column, full = two columns. -/
inductive GraphemeWidth
  | Half
  | Full
  deriving DecidableEq

/-- Column cost of a `GraphemeWidth` (the `match` used throughout buffer.rs:
`Half => 1, Full => 2`). -/
def GraphemeWidth.cols : GraphemeWidth → Nat
  | .Half => 1
  | .Full => 2

/-- One user-perceived character (line.rs `TextFragment`): the grapheme
cluster, its render width and an optional display substitution. -/
structure TextFragment where
  grapheme : List Char
  render_width : GraphemeWidth
  replacement_text : Option Char
  deriving DecidableEq

instance : Inhabited TextFragment := ⟨⟨[], .Half, none⟩⟩

/-- Modelled from the spec: the terminal display width of one character, as
classified by the external unicode-width collaborator (§4.1: width 0, 1 or
≥ 2 columns; control and zero-width characters have width 0).  Exact for
ASCII, which is all the concrete inputs used below. -/
def charDisplayWidth (c : Char) : Nat :=
  if c.toNat < 32 ∨ c.toNat = 127 then 0
  else if c.toNat < 0x1100 then 1
  else 2

/-- Modelled from the spec: `TextFragment::try_from` on a single-cluster
string (missing from the checked-in sources; buffer.rs calls it when
inserting characters and tab spaces).  Per §4.1 / line.rs `Line::from`:
width 0 or 1 is `Half`, anything wider is `Full`; a zero-width cluster gets
a one-character display override (tab→space, control→`|`, other→`.`). -/
def TextFragment.ofChar (c : Char) : TextFragment :=
  let w := charDisplayWidth c
  { grapheme := [c]
  , render_width := if w ≤ 1 then .Half else .Full
  , replacement_text :=
      if w = 0 then
        some (if c = '\t' then ' ' else if c.toNat < 32 ∨ c.toNat = 127 then '|' else '.')
      else none }

/-- A row of text (buffer.rs / line.rs `Line`): fragments plus the cached
flattened string. -/
structure Line where
  string : List TextFragment
  raw_string : List Char
  deriving DecidableEq

instance : Inhabited Line := ⟨⟨[], []⟩⟩

/-- `Line::grapheme_len`: total render width of the line (line.rs sums
`Half => 1, Full => 2` over the fragments; the empty line returns 0). -/
def Line.grapheme_len (l : Line) : Nat :=
  (l.string.map (fun f => f.render_width.cols)).sum

/-- Modelled from the spec: `Line::generate_raw_string`, called by every
buffer.rs mutation but defined in a line.rs revision that is not part of the
checked-in sources.  §3: `raw_string` is the concatenation of the fragment
graphemes in order. -/
def Line.generate_raw_string (l : Line) : Line :=
  { l with raw_string := (l.string.map (fun f => f.grapheme)).flatten }

/-- Modelled from the spec: `Line::from` — decompose a raw string into
grapheme clusters (one `Char` per cluster in this embedding) and cache the
flattened string (§3, §4.1). -/
def Line.fromChars (s : List Char) : Line :=
  Line.generate_raw_string { string := s.map TextFragment.ofChar, raw_string := [] }

/-- Modelled from the spec: `Line::to_string` as used by `Buffer::save`
(§4.2: save "writes each line's raw text followed by newline"). -/
def Line.to_string (l : Line) : List Char :=
  l.raw_string

/-- The cursor position used by buffer.rs (`view::Position`): row, column in
render-width units, and the remembered sticky column. -/
structure Position where
  height : Nat
  width : Nat
  max_width : Nat
  deriving DecidableEq

instance : Inhabited Position := ⟨⟨0, 0, 0⟩⟩

/-- Modelled from the spec: `Position::left(n)` — move the cursor `n`
columns left, saturating at 0 (the caller in §4.2 "moves the cursor left by
that fragment's render width"). -/
def Position.left (p : Position) (n : Nat) : Position :=
  { p with width := p.width - n }

/-- Modelled from the spec: `Position::down(n, max)` — move the cursor `n`
rows down, clamped to the last buffer row `max` (§4.3 vertical moves clamp
against buffer length). -/
def Position.down (p : Position) (n : Nat) (max : Nat) : Position :=
  { p with height := min (p.height + n) max }

/-- The text buffer (buffer.rs `Buffer`): lines, optional file name, and the
dirty flag. -/
structure Buffer where
  text : List Line
  filename : Option (List Char)
  is_saved : Bool
  deriving DecidableEq

/-- `Vec::get_mut(i)` followed by a mutation, as used throughout buffer.rs:
replace the line at `i` by `f` of it (callers guarantee `i` is in bounds;
out of bounds the Rust code panics and this embedding is a no-op). -/
def modifyLine (text : List Line) (i : Nat) (f : Line → Line) : List Line :=
  text.set i (f (text.getD i default))

def Buffer.is_empty (b : Buffer) : Bool :=
  b.text.isEmpty

def Buffer.len (b : Buffer) : Nat :=
  b.text.length

/-- `Buffer::is_tab(pos)`: true when the four fragments immediately left of
`pos.width` all hold the grapheme `" "` (buffer.rs lines 306–328: width
below 4 is never a tab; `string.get(width-4..width)` returning `None`, i.e.
`pos.width` beyond the fragment count, is never a tab either). -/
def Buffer.is_tab (b : Buffer) (pos : Position) : Bool :=
  if pos.width < 4 then false
  else
    let line := b.text.getD pos.height default
    if pos.width ≤ line.string.length then
      ((line.string.drop (pos.width - 4)).take 4).all (fun f => f.grapheme = [' '])
    else false

/-- `Buffer::update_line_delete(pos)` (buffer.rs lines 274–304).  On the tab
branch the loop `for i in (width-4..width).rev()` removes the four indices
`width-1, width-2, width-3, width-4` in that order and the cursor moves left
by 4; this branch regenerates neither `raw_string` nor `is_saved`.
Otherwise the fragment at `width.saturating_sub(1)` is removed, the raw
string is regenerated, `is_saved` is cleared and the cursor moves left by
the removed fragment's render width. -/
def Buffer.update_line_delete (b : Buffer) (pos : Position) : Buffer × Position :=
  if b.is_tab pos then
    let line := b.text.getD pos.height default
    let s1 := ((((line.string.eraseIdx (pos.width - 1)).eraseIdx
        (pos.width - 2)).eraseIdx (pos.width - 3)).eraseIdx (pos.width - 4))
    ({ b with text := b.text.set pos.height { line with string := s1 } }, pos.left 4)
  else
    let line := b.text.getD pos.height default
    let removed := line.string.getD (pos.width - 1) default
    let line1 := Line.generate_raw_string
      { line with string := line.string.eraseIdx (pos.width - 1) }
    ({ b with text := b.text.set pos.height line1, is_saved := false },
     pos.left removed.render_width.cols)

/-- `Buffer::update_line_insert(pos, char)` (buffer.rs lines 245–272): build
a fragment from the character, insert it at fragment index `pos.width` (or
start a fresh line when the buffer is empty), regenerate the raw string,
clear `is_saved` and advance the cursor by the fragment's render width. -/
def Buffer.update_line_insert (b : Buffer) (pos : Position) (c : Char) :
    Buffer × Position :=
  let newF := TextFragment.ofChar c
  let mw := newF.render_width.cols
  let text0 :=
    if b.text.isEmpty then [Line.fromChars [c]]
    else modifyLine b.text pos.height (fun l =>
      { l with string := l.string.insertIdx pos.width newF })
  let text1 := modifyLine text0 pos.height Line.generate_raw_string
  ({ b with text := text1, is_saved := false },
   { pos with width := pos.width + mw })

/-- The iterated `Vec::insert(pos.width, " ")` of `Buffer::insert_tab`:
insert `n` space fragments, each at index `w`. -/
def insertSpaces : Nat → Nat → List TextFragment → List TextFragment
  | 0, _, s => s
  | n + 1, w, s => insertSpaces n w (s.insertIdx w (TextFragment.ofChar ' '))

/-- `Buffer::insert_tab(pos, num_tabs)` (buffer.rs lines 219–243): push an
empty line if the buffer is empty, insert one space fragment at `pos.width`
for every step of `pos.width..pos.width + 4*num_tabs`, and regenerate the
raw string.  Note: this operation does not touch `is_saved`. -/
def Buffer.insert_tab (b : Buffer) (pos : Position) (num_tabs : Nat) : Buffer :=
  let text0 :=
    if b.text.isEmpty then b.text ++ [({ string := [], raw_string := [] } : Line)]
    else b.text
  let count := (pos.width + 4 * num_tabs) - pos.width
  let text1 := modifyLine text0 pos.height (fun l =>
    { l with string := insertSpaces count pos.width l.string })
  let text2 := modifyLine text1 pos.height Line.generate_raw_string
  { b with text := text2 }

/-- UTF-8 encoding of one character, used to mirror the byte-level loops of
buffer.rs (`raw_string.as_bytes()` and `str::len`). -/
def charUtf8 (c : Char) : List Nat :=
  let n := c.toNat
  if n < 0x80 then [n]
  else if n < 0x800 then [0xC0 + n / 0x40, 0x80 + n % 0x40]
  else if n < 0x10000 then
    [0xE0 + n / 0x1000, 0x80 + (n / 0x40) % 0x40, 0x80 + n % 0x40]
  else
    [0xF0 + n / 0x40000, 0x80 + (n / 0x1000) % 0x40,
     0x80 + (n / 0x40) % 0x40, 0x80 + n % 0x40]

/-- The bytes of a string (`str::as_bytes`). -/
def bytesOf (s : List Char) : List Nat :=
  (s.map charUtf8).flatten

/-- `str::len` — the length of a string in bytes. -/
def byteLen (s : List Char) : Nat :=
  (bytesOf s).length

/-- The `while i < len && bytes[i] == 32` loop of `Buffer::num_tabs`. -/
def numTabsLoop (bytes : List Nat) (i : Nat) : Nat :=
  if i < bytes.length ∧ bytes.getD i 0 = 32 then numTabsLoop bytes (i + 1) else i
  termination_by bytes.length - i
  decreasing_by omega

/-- `Buffer::num_tabs(index)` (buffer.rs lines 330–339): starting at byte 5,
advance over spaces, then shift right by two (divide by 4). -/
def Buffer.num_tabs (b : Buffer) (index : Nat) : Nat :=
  (numTabsLoop (bytesOf (b.text.getD index default).raw_string) 5) >>> 2

/-- `Buffer::new_line(line_index)` (buffer.rs lines 341–373): push an empty
line when empty, insert a blank line after `line_index`, copy the leading
tab run of `line_index` when it starts with a tab, and clear `is_saved`. -/
def Buffer.new_line (b : Buffer) (line_index : Nat) : Buffer :=
  let text0 :=
    if b.text.isEmpty then b.text ++ [({ string := [], raw_string := [] } : Line)]
    else b.text
  let text1 := text0.insertIdx (line_index + 1) { string := [], raw_string := [] }
  let b1 : Buffer := { b with text := text1 }
  let b2 :=
    if b1.is_tab { height := line_index, width := 4, max_width := 0 } then
      b1.insert_tab { height := line_index + 1, width := 0, max_width := 0 }
        (b1.num_tabs line_index)
    else b1
  { b2 with is_saved := false }

/-- `Buffer::split_line(pos)` (buffer.rs lines 375–404): the suffix of the
current line's fragments from `pos.width` becomes a new line inserted just
below, the original is truncated to the prefix, the new line's raw string is
generated and `is_saved` is cleared. -/
def Buffer.split_line (b : Buffer) (pos : Position) : Buffer :=
  let line := b.text.getD pos.height default
  let text1 := b.text.insertIdx (pos.height + 1)
    { string := line.string.drop pos.width, raw_string := [] }
  let text2 := modifyLine text1 pos.height (fun l =>
    { l with string := l.string.take pos.width })
  let text3 := modifyLine text2 (pos.height + 1) Line.generate_raw_string
  { b with text := text3, is_saved := false }

/-- `Buffer::join_line(line_index)` (buffer.rs lines 406–428): append line
`line_index`'s fragments onto line `line_index - 1`, remove line
`line_index`, clear `is_saved` and regenerate the merged line's raw
string. -/
def Buffer.join_line (b : Buffer) (line_index : Nat) : Buffer :=
  let cur := (b.text.getD line_index default).string
  let text1 := b.text.eraseIdx line_index
  let text2 := modifyLine text1 (line_index - 1) (fun l =>
    { l with string := l.string ++ cur })
  let text3 := modifyLine text2 (line_index - 1) Line.generate_raw_string
  { b with text := text3, is_saved := false }

/-- The byte stream `Buffer::save` writes: every line's raw text followed by
a newline, the last line included (buffer.rs lines 199–217). -/
def Buffer.saveOutput (b : Buffer) : List Char :=
  (b.text.map (fun l => l.to_string ++ ['\n'])).flatten

/-- `Buffer::save` (buffer.rs lines 199–217): panics (`none`) without a
filename; otherwise produces the written bytes and sets `is_saved`. -/
def Buffer.save (b : Buffer) : Option (Buffer × List Char) :=
  match b.filename with
  | none => none
  | some _ => some ({ b with is_saved := true }, b.saveOutput)

/-- `str::lines` splitting on `'\n'`: all `'\n'`-separated pieces. -/
def splitNl : List Char → List (List Char)
  | [] => [[]]
  | c :: rest =>
    if c = '\n' then [] :: splitNl rest
    else
      match splitNl rest with
      | [] => [[c]]
      | g :: gs => (c :: g) :: gs

/-- `str::lines`: like splitting on `'\n'` but a trailing newline yields no
final empty record. -/
def rustLines (s : List Char) : List (List Char) :=
  let p := splitNl s
  if p.getLast? = some [] then p.dropLast else p

/-- `Buffer::load(filename)` (buffer.rs lines 57–71) with the file contents
passed in for the external file-system collaborator: one `Line::from` per
text line, `is_saved` starts true. -/
def Buffer.load (filename : List Char) (contents : List Char) : Buffer :=
  { text := (rustLines contents).map Line.fromChars
  , filename := some filename
  , is_saved := true }

/-- The scan behind Rust `str::split(pattern)` for a non-empty pattern:
either the pattern matches at the head (one piece boundary; the scan resumes
past the match, so matches never overlap) or one character is moved into the
current piece.  The `fuel` argument only makes the recursion structural; the
wrapper passes `s.length + 1`, which the scan can never exhaust because every
step consumes at least one character of `s`. -/
def rustSplitGo (pat : List Char) : Nat → List Char → List (List Char)
  | 0, s => [s]
  | fuel + 1, s =>
    if pat ≠ [] ∧ pat.isPrefixOf s then
      [] :: rustSplitGo pat fuel (s.drop pat.length)
    else
      match s with
      | [] => [[]]
      | c :: rest =>
        match rustSplitGo pat fuel rest with
        | [] => [[c]]
        | g :: gs => (c :: g) :: gs

/-- Rust `str::split(pattern)` for a non-empty pattern: the pieces between
leftmost non-overlapping matches (an empty pattern, which Rust treats
specially, is never passed by `Buffer::search`). -/
def rustSplit (pat s : List Char) : List (List Char) :=
  rustSplitGo pat (s.length + 1) s

/-- `Buffer::find_search_widths(search_str, line_index)` (buffer.rs lines
173–193): split the line's raw string on the pattern, start from the first
piece's byte length, accumulate `search_len + piece_len` for every further
piece, and drop the final accumulated total. -/
def Buffer.find_search_widths (b : Buffer) (search_str : List Char)
    (line_index : Nat) : List Nat :=
  let pieces := rustSplit search_str ((b.text.getD line_index default).raw_string)
  let search_len := byteLen search_str
  let first := pieces.headD []
  let init := byteLen first
  let ws := ((pieces.drop 1).foldl
    (fun (p : List Nat × Nat) slice =>
      let r := p.2 + search_len + byteLen slice
      (p.1 ++ [r], r))
    ([init], init)).1
  ws.dropLast

/-- `Buffer::search(search_str)` (buffer.rs lines 73–90): for every line
whose raw string contains the pattern, one `Position` per width found by
`find_search_widths`, in line order. -/
def Buffer.search (b : Buffer) (search_str : List Char) : List Position :=
  b.text.enum.flatMap (fun p =>
    if decide (search_str <:+: p.2.raw_string) then
      (b.find_search_widths search_str p.1).map (fun w =>
        { width := w, height := p.1, max_width := 0 })
    else [])

/-- The scan computing the spec-side occurrence columns, with the same
structural fuel as `rustSplitGo`. -/
def nonOverlapOccsGo (pat : List Char) : Nat → List Char → Nat → List Nat
  | 0, _, _ => []
  | fuel + 1, s, ofs =>
    if pat ≠ [] ∧ pat.isPrefixOf s then
      ofs :: nonOverlapOccsGo pat fuel (s.drop pat.length) (ofs + byteLen pat)
    else
      match s with
      | [] => []
      | c :: rest => nonOverlapOccsGo pat fuel rest (ofs + byteLen [c])

/-- Spec-side reference for `Buffer::search` (§4.2): the byte column of each
leftmost non-overlapping occurrence of `pat` in `s`, offsets starting at
`ofs`.  The scan either consumes a match (recording its column and skipping
the whole pattern, so later matches cannot overlap it) or one character. -/
def nonOverlapOccs (pat s : List Char) (ofs : Nat) : List Nat :=
  nonOverlapOccsGo pat (s.length + 1) s ofs

/-- Spec-side reference for the whole of `Buffer::search`: every line is
scanned and each non-overlapping occurrence column becomes a `Position` on
that line. -/
def Buffer.searchSpec (b : Buffer) (pat : List Char) : List Position :=
  b.text.enum.flatMap (fun p =>
    (nonOverlapOccs pat p.2.raw_string 0).map (fun w =>
      { width := w, height := p.1, max_width := 0 }))

/-- The terminal-level cursor/offset pair (terminal.rs `Position`): a row
and a column, no sticky column. -/
structure Pos where
  height : Nat
  width : Nat
  deriving DecidableEq

instance : Inhabited Pos := ⟨⟨0, 0⟩⟩

/-- Terminal viewport dimensions (terminal.rs `Size`). -/
structure Size where
  height : Nat
  width : Nat
  deriving DecidableEq

/-- The incremental-search controller state (search.rs `Search`): the flag
telling the renderer a search bar is up, the index of the match the cursor
sits on, the query, the cursor/offset saved on entry, the stack of result
sets (one per query length) and the set of line indices holding hits
(embedded as the list of heights of the newest result set). -/
structure SearchState where
  render_search : Bool
  search_index : Nat
  string : List Char
  previous_position : Pos
  previous_offset : Pos
  stack : List (List Pos)
  line_indicies : List Nat
  deriving DecidableEq

/-- `Search::default()`. -/
def SearchState.default : SearchState :=
  { render_search := false, search_index := 0, string := []
  , previous_position := ⟨0, 0⟩, previous_offset := ⟨0, 0⟩
  , stack := [], line_indicies := [] }

/-- The `while l < r` binary-search loop of `Search::find_relative_start`
(search.rs lines 51–63).  The guard before it always returns early, so this
loop is dead code; it is embedded for fidelity. -/
def binSearchLoop (positions : List Pos) (curr_height l r : Nat) : Option Nat :=
  if l < r then
    let m := (r - l) / 2 + l
    if (positions.getD m default).height = curr_height ∨
        ((positions.getD (m - 1) default).height < curr_height ∧
          (positions.getD (m + 1) default).height > curr_height) then
      some (positions.getD m default).height
    else if (positions.getD m default).height > curr_height then
      binSearchLoop positions curr_height l (m - 1)
    else
      binSearchLoop positions curr_height (m + 1) r
  else none
  termination_by r - l
  decreasing_by
    · rename_i hlr _ _
      omega
    · rename_i hlr _ _
      omega

/-- `Search::find_relative_start(curr_height)` (search.rs lines 34–65):
fetch the newest result set (`None` when the stack is empty), set `l = 0`,
`r = len - 1`, return `None` when `r >= l`, and otherwise binary-search. -/
def SearchState.find_relative_start (s : SearchState) (curr_height : Nat) :
    Option Nat :=
  match s.stack.get? (s.stack.length - 1) with
  | none => none
  | some current_positions =>
    let l : Nat := 0
    let r : Nat := current_positions.length - 1
    if r ≥ l then none
    else binSearchLoop current_positions curr_height l r

/-- `Search::set_line_indicies` (search.rs lines 76–88): the line indices of
the newest result set (a `HashSet` in the source; the embedding keeps the
heights as a list, which is all the claims need). -/
def SearchState.set_line_indicies (s : SearchState) : SearchState :=
  { s with line_indicies := (s.stack.getD (s.stack.length - 1) []).map (·.height) }

/-- `Search::clean_up_search` (search.rs lines 90–94). -/
def SearchState.clean_up_search (s : SearchState) : SearchState :=
  { s with string := [], stack := [], line_indicies := [] }

/-! ### Vim mode: the colon-command sub-state machine (vim_mode.rs) -/

/-- The colon-command tokens (`ColonQueueActions` of editorcommands.rs,
whose revision with this enum is not among the checked-in sources). -/
inductive ColonQueueActions
  | Write
  | Quit
  | Override
  deriving DecidableEq

/-- Modelled from the spec: `ColonQueueActions::try_from(char)` — the
colon-command tokens are `w`, `q` and `!` (§4.4: "parses the accumulated
string into one or two command tokens (`w`, `q`, `!`)"); any other
character fails. -/
def ColonQueueActions.tryFromChar (c : Char) : Option ColonQueueActions :=
  if c = 'w' then some .Write
  else if c = 'q' then some .Quit
  else if c = '!' then some .Override
  else none

/-- `VimMode::map_string_to_queue_vec` (vim_mode.rs lines 372–380): map
every queued character to a token, failing on the first unmappable one. -/
def map_string_to_queue_vec : List Char → Option (List ColonQueueActions)
  | [] => some []
  | c :: rest =>
    match ColonQueueActions.tryFromChar c, map_string_to_queue_vec rest with
    | some a, some as_ => some (a :: as_)
    | _, _ => none

/-- `ContinueState` (vim_mode.rs lines 17–22): what the vim run loop does
after a queued command. -/
inductive ContinueState
  | ExitSession
  | ContinueVim
  | ContinueVimPersistError
  | InvalidCommand
  deriving DecidableEq

/-- `VimMode::eval_colon_queue(queue)` (vim_mode.rs lines 331–370), with the
buffer state threaded through and the status-line messages collected.
`none` is the panic of `Buffer::save` without a filename. -/
def eval_colon_queue (b : Buffer) (queue : List ColonQueueActions) :
    Option (ContinueState × Buffer × List (List Char)) :=
  match queue with
  | [.Write] =>
    match b.save with
    | none => none
    | some (b1, _) => some (.ContinueVim, b1, [])
  | [.Quit] =>
    if !b.is_saved then
      some (.ContinueVimPersistError, b, [('n' :: 'o' :: 't' :: ' ' :: 's' :: 'a' :: 'v' :: 'e' :: 'd' :: [])])
    else some (.ExitSession, b, [])
  | [.Override] =>
    some (.ContinueVimPersistError, b, [('I' :: 'n' :: 'v' :: 'a' :: 'l' :: 'i' :: 'd' :: [])])
  | [.Write, .Quit] =>
    match b.save with
    | none => none
    | some (b1, _) => some (.ExitSession, b1, [])
  | [.Quit, .Override] => some (.ExitSession, b, [])
  | _ :: _ :: [] =>
    some (.ContinueVim, b, [('I' :: 'n' :: 'v' :: 'a' :: 'l' :: 'i' :: 'd' :: [])])
  | _ =>
    some (.ContinueVim, b, [('I' :: 'n' :: 'v' :: 'a' :: 'l' :: 'i' :: 'd' :: [])])

/-- The events the colon-command loop reacts to (`VimColonQueue` of
editorcommands.rs, abstracted from the key codes). -/
inductive ColonEvent
  | New (c : Char)
  | Backspace
  | Execute
  | Resize (s : Size)
  | Other
  deriving DecidableEq

/-- One step of the `queue_colon` loop: either the loop continues (the
sub-state machine stays in ColonCommand, with the updated queue) or it
returns a `ContinueState` to the vim run loop (the sub-state is left). -/
inductive ColonStepResult
  | Stay (b : Buffer) (size : Size) (queue : List Char) (msgs : List (List Char))
  | Done (st : ContinueState) (b : Buffer) (msgs : List (List Char))
  | Panic
  deriving DecidableEq

/-- One iteration of `VimMode::queue_colon` (vim_mode.rs lines 288–322):
characters accumulate, Backspace pops (returning to vim mode when the queue
is empty), Enter (`Execute`) parses the queue — an unmappable character
clears the queue, shows "Invalid command" and keeps looping, a parsed queue
is evaluated and its `ContinueState` returned — and a resize only updates
the size. -/
def queue_colon_step (b : Buffer) (size : Size) (queue : List Char)
    (e : ColonEvent) : ColonStepResult :=
  match e with
  | .New c => .Stay b size (queue ++ [c]) []
  | .Backspace =>
    if queue = [] then .Done .ContinueVim b []
    else .Stay b size queue.dropLast []
  | .Execute =>
    match map_string_to_queue_vec queue with
    | none =>
      .Stay b size [] [('I' :: 'n' :: 'v' :: 'a' :: 'l' :: 'i' :: 'd' :: [])]
    | some mapped =>
      match eval_colon_queue b mapped with
      | none => .Panic
      | some (st, b1, msgs) => .Done st b1 msgs
  | .Resize s => .Stay b s queue []
  | .Other => .Stay b size queue []

/-- Whether the vim run loop stays in vim mode after a `ContinueState`
(vim_mode.rs lines 88–99): only `ExitSession` ends the terminal session. -/
def staysInVimMode : ContinueState → Bool
  | .ExitSession => false
  | _ => true

/-! ### The cursor/viewport engine (view.rs) -/

/-- The cursor-movement directions (editorcommands.rs `Direction`). -/
inductive Direction
  | Up
  | Down
  | Left
  | Right
  | PageUp
  | PageDown
  | End
  | Home
  deriving DecidableEq

/-- The editor commands the engine dispatches on (editorcommands.rs
`EditorCommand`), restricted to the cursor moves, edits and resizes the
claims quantify over. -/
inductive EditorCommand
  | Move (dir : Direction)
  | Resize (s : Size)
  | Tab
  | Insert (c : Char)
  deriving DecidableEq

/-- The `View` state (view.rs lines 22–33): buffer, redraw flag, viewport
size, cursor, scroll offset, the help indicator's visibility and the search
controller (the theme, clipboard and highlight fields play no part in the
claims). -/
structure View where
  buffer : Buffer
  needs_redraw : Bool
  size : Size
  cursor_position : Pos
  screen_offset : Pos
  render_help : Bool
  search : SearchState
  deriving DecidableEq

/-- `View::handle_offset_screen_snap` (view.rs lines 577–617): recompute the
offset from scratch.  Height: when the cursor reaches the last visible row,
clamp against both `buffer.len - size.height + 2` and
`cursor.height - size.height + 2` (one more when a search or help bar is
up); when the cursor is above the window, `cursor.height - 1`; a cursor on
row 0 or column 0 zeroes the respective offset.  Width: past the right edge
gives `cursor.width - size.width + 1`, left of the window gives
`cursor.width - 1`. -/
def View.handle_offset_screen_snap (v : View) : View :=
  let oh :=
    if v.cursor_position.height + 1 ≥ v.size.height + v.screen_offset.height then
      let x := min (v.buffer.text.length - v.size.height + 2)
        (v.cursor_position.height - v.size.height + 2)
      if v.search.render_search || v.render_help then x + 1 else x
    else if v.cursor_position.height < v.screen_offset.height then
      v.cursor_position.height - 1
    else v.screen_offset.height
  let oh := if v.cursor_position.height = 0 then 0 else oh
  let ow := if v.cursor_position.width = 0 then 0 else v.screen_offset.width
  let ow :=
    if v.cursor_position.width ≥ v.size.width + ow then
      v.cursor_position.width - v.size.width + 1
    else if v.cursor_position.width < ow then
      v.cursor_position.width - 1
    else ow
  { v with screen_offset := { height := oh, width := ow } }

/-- `View::update_offset_single_move` (view.rs lines 618–645): the O(1)
offset adjustment — step the height offset down when the cursor reaches the
last visible row, follow the cursor up when it is at or above the offset,
follow it left when left of the window, and step right by one when at or
past the right edge. -/
def View.update_offset_single_move (v : View) : View :=
  let oh :=
    if v.cursor_position.height ≥ (v.size.height + v.screen_offset.height) - 1 then
      min (v.screen_offset.height + 1)
        (v.cursor_position.height - v.size.height + 2)
    else v.screen_offset.height
  let oh := if v.cursor_position.height ≤ oh then v.cursor_position.height else oh
  let ow :=
    if v.cursor_position.width < v.screen_offset.width then v.cursor_position.width
    else v.screen_offset.width
  let ow := if v.cursor_position.width ≥ v.size.width + ow then ow + 1 else ow
  { v with screen_offset := { height := oh, width := ow } }

/-- `View::move_cursor(direction)` (view.rs lines 201–314): move the cursor
with the source's edge policies (vertical moves clamp the column to the
target line's length; Left at column 0 snaps to the end of the previous
row; Right at end of line snaps to column 0 of the next row; page moves and
Home/End snap), then run the snap or the single-move offset update, and
mark the view for redraw.  An empty buffer just resets the cursor. -/
def View.move_cursor (v : View) (dir : Direction) : View :=
  if v.buffer.text.isEmpty = false then
    let go : Pos × Bool :=
      match dir with
      | .Down =>
        let h := min (v.cursor_position.height + 1) (v.buffer.text.length - 1)
        ({ height := h
         , width := min v.cursor_position.width
            (v.buffer.text.getD h default).grapheme_len }, false)
      | .Up =>
        let h := v.cursor_position.height - 1
        ({ height := h
         , width := min v.cursor_position.width
            (v.buffer.text.getD h default).grapheme_len }, false)
      | .Left =>
        if v.cursor_position.width = 0 ∧ v.cursor_position.height > 0 then
          let h := v.cursor_position.height - 1
          ({ height := h
           , width := (v.buffer.text.getD h default).grapheme_len }, true)
        else
          ({ v.cursor_position with width := v.cursor_position.width - 1 }, false)
      | .Right =>
        let glen := (v.buffer.text.getD v.cursor_position.height default).grapheme_len
        let th := v.buffer.text.length - 1
        if v.cursor_position.width = glen ∧ v.cursor_position.height < th then
          ({ height := v.cursor_position.height + 1, width := 0 }, true)
        else
          ({ v.cursor_position with
              width := min (v.cursor_position.width + 1) glen }, false)
      | .PageDown =>
        ({ v.cursor_position with height := v.buffer.text.length - 1 }, true)
      | .PageUp => ({ v.cursor_position with height := 0 }, true)
      | .End =>
        ({ v.cursor_position with
            width := (v.buffer.text.getD v.cursor_position.height default).grapheme_len },
         true)
      | .Home => ({ v.cursor_position with width := 0 }, true)
    let v1 := { v with cursor_position := go.1 }
    let v2 := if go.2 then v1.handle_offset_screen_snap else v1.update_offset_single_move
    { v2 with needs_redraw := true }
  else
    { v with cursor_position := { height := 0, width := 0 }, needs_redraw := true }

/-- `View::resize(size)` (view.rs lines 167–170): adopt the new size, then
snap the offset. -/
def View.resize (v : View) (s : Size) : View :=
  View.handle_offset_screen_snap { v with size := s }

/-- `View::insert_tab` (view.rs lines 323–326): have the buffer insert one
tab (four space fragments) at the cursor and advance the cursor four
columns.  The offset is not adjusted. -/
def View.insert_tab (v : View) : View :=
  let b := v.buffer.insert_tab
    { height := v.cursor_position.height, width := v.cursor_position.width,
      max_width := 0 } 1
  { v with
    buffer := b,
    cursor_position :=
      { v.cursor_position with width := v.cursor_position.width + 4 } }

/-- `View::insert_char` (view.rs lines 316–321): delegate to
`Buffer::update_line_insert` (which advances the cursor by the inserted
fragment's render width) and clear `is_saved` again. -/
def View.insert_char (v : View) (c : Char) : View :=
  let r := v.buffer.update_line_insert
    { height := v.cursor_position.height, width := v.cursor_position.width,
      max_width := 0 } c
  { v with
    buffer := { r.1 with is_saved := false },
    cursor_position := { height := r.2.height, width := r.2.width } }

/-- `View::handle_event(command)` (view.rs lines 399–515) on the embedded
command subset: `Move` runs the shared cursor movement, `Resize` re-snaps,
`Tab` inserts a tab with no offset update, `Insert` inserts a character and
runs the single-move offset update; every dispatch ends with
`needs_redraw = true`. -/
def View.handle_event (v : View) (cmd : EditorCommand) : View :=
  let v1 :=
    match cmd with
    | .Move d => v.move_cursor d
    | .Resize s => v.resize s
    | .Tab => v.insert_tab
    | .Insert c => (v.insert_char c).update_offset_single_move
  { v1 with needs_redraw := true }

/-- The viewport invariant of §3 (claim C1):
`offset.height ≤ cursor.height < offset.height + size.height` and the
symmetric column inequality. -/
def View.inView (v : View) : Bool :=
  decide (v.screen_offset.height ≤ v.cursor_position.height) &&
  decide (v.cursor_position.height < v.screen_offset.height + v.size.height) &&
  decide (v.screen_offset.width ≤ v.cursor_position.width) &&
  decide (v.cursor_position.width < v.screen_offset.width + v.size.width)

/-! ### The incremental-search loop (`View::handle_search`, view.rs 647–782) -/

/-- The keys the search loop reacts to (view.rs lines 662–740, abstracted
from the crossterm key codes). -/
inductive SearchEvent
  | ctrlN
  | ctrlP
  | newChar (c : Char)
  | backspace
  | esc
  | enter
  | resizeEv (s : Size)
  | other
  deriving DecidableEq

/-- How the search loop ended. -/
inductive SearchExit
  | esc
  | enter
  deriving DecidableEq

/-- `View::revert_screen_state` (view.rs lines 784–787): restore the cursor
and offset saved when search began. -/
def View.revert_screen_state (v : View) : View :=
  { v with
    cursor_position := v.search.previous_position,
    screen_offset := v.search.previous_offset }

/-- The result sets `handle_search` pushes: `Buffer::search` of the current
query, as terminal positions (view.rs line 696). -/
def View.searchResults (v : View) (query : List Char) : List Pos :=
  (v.buffer.search query).map (fun p => { height := p.height, width := p.width })

/-- The `match` arm of one `handle_search` iteration (view.rs lines
662–740): Ctrl-N/Ctrl-P cycle the match index, a character pushes a new
result set and re-derives the index and line set, Backspace pops them, Esc
reverts the screen state, discards the search state and breaks, Enter keeps
the screen state, discards the search state and breaks, and a resize
re-snaps. -/
def View.searchMatchStep (v : View) (e : SearchEvent) : View × Option SearchExit :=
  match e with
  | .ctrlN =>
    if v.search.stack.isEmpty = false then
      let curr := v.search.stack.getD (v.search.stack.length - 1) []
      let idx :=
        if curr.length - 1 > v.search.search_index then v.search.search_index + 1
        else 0
      ({ v with search := { v.search with search_index := idx } }, none)
    else (v, none)
  | .ctrlP =>
    if v.search.stack.isEmpty = false then
      let curr := v.search.stack.getD (v.search.stack.length - 1) []
      let idx :=
        if v.search.search_index > 0 then v.search.search_index - 1
        else curr.length - 1
      ({ v with search := { v.search with search_index := idx } }, none)
    else (v, none)
  | .newChar c =>
    let s1 := { v.search with string := v.search.string ++ [c] }
    let s2 := { s1 with stack := s1.stack ++ [v.searchResults s1.string] }
    let s3 := { s2 with
      search_index := (s2.find_relative_start v.search.previous_position.height).getD 0 }
    ({ v with search := s3.set_line_indicies }, none)
  | .backspace =>
    if v.search.string.isEmpty = false then
      let s1 := { v.search with
        string := v.search.string.dropLast, stack := v.search.stack.dropLast }
      let s2 := { s1 with
        search_index := (s1.find_relative_start v.search.previous_position.height).getD 0 }
      ({ v with search := s2.set_line_indicies }, none)
    else (v, none)
  | .esc =>
    let v1 := v.revert_screen_state
    ({ v1 with search := v1.search.clean_up_search }, some .esc)
  | .enter => ({ v with search := v.search.clean_up_search }, some .enter)
  | .resizeEv s => (v.resize s, none)
  | .other => (v, none)

/-- The tail of one `handle_search` iteration (view.rs lines 745–778): an
empty stack or an empty newest result set reverts the screen state and
skips the rest; otherwise the cursor jumps to the match at `search_index`
and the offset is re-snapped when that match is off screen. -/
def View.searchPost (v : View) : View :=
  if v.search.stack.isEmpty then v.revert_screen_state
  else if (v.search.stack.getD (v.search.stack.length - 1) []).isEmpty then
    v.revert_screen_state
  else
    let cur := (v.search.stack.getD (v.search.stack.length - 1) []).getD
      v.search.search_index default
    let v1 := { v with cursor_position := cur }
    if cur.height > v1.screen_offset.height + (v1.size.height - 2) ∨
        cur.height < v1.screen_offset.height then
      v1.handle_offset_screen_snap
    else v1

/-- The `loop` of `View::handle_search`: process events until Esc or Enter
breaks it (an exhausted event list leaves the loop blocked on input:
`none`).  On a break the search bar flag is dropped (view.rs line 780). -/
def View.searchLoop (v : View) : List SearchEvent → View × Option SearchExit
  | [] => (v, none)
  | e :: rest =>
    match v.searchMatchStep e with
    | (v1, some ex) =>
      ({ v1 with search := { v1.search with render_search := false } }, some ex)
    | (v1, none) => v1.searchPost.searchLoop rest

/-- `View::handle_search` (view.rs lines 647–782) driven by an event list:
save the cursor and offset, clear the query and index, then run the loop.
The `render_search` flag was set by the dispatcher (view.rs line 430). -/
def View.handle_search (v : View) (events : List SearchEvent) :
    View × Option SearchExit :=
  let v0 := { v with
    render_help := false,
    search := { v.search with
      render_search := true,
      previous_position := v.cursor_position,
      previous_offset := v.screen_offset,
      string := [],
      search_index := 0 } }
  v0.searchLoop events

/-! ### List helpers shared by the proofs -/

theorem getD_set_self {α : Type} [Inhabited α] (l : List α) (i : Nat) (x : α)
    (h : i < l.length) : (l.set i x).getD i default = x := by
  rw [List.getD_eq_getElem?_getD, List.getElem?_set_self h, Option.getD_some]

theorem getD_set_ne {α : Type} [Inhabited α] (l : List α) (i j : Nat) (x : α)
    (hne : i ≠ j) : (l.set i x).getD j default = l.getD j default := by
  rw [List.getD_eq_getElem?_getD, List.getD_eq_getElem?_getD, List.getElem?_set,
    if_neg hne]

theorem set_getD_self {α : Type} [Inhabited α] (l : List α) (i : Nat)
    (h : i < l.length) : l.set i (l.getD i default) = l := by
  apply List.ext_getElem?
  intro n
  rw [List.getElem?_set]
  by_cases hin : i = n
  · subst hin
    rw [if_pos rfl, if_pos h, List.getD_eq_getElem _ _ h, List.getElem?_eq_getElem h]
  · rw [if_neg hin]

theorem eraseIdx_set_self {α : Type} (l : List α) (i : Nat) (x : α) :
    (l.set i x).eraseIdx i = l.eraseIdx i := by
  rw [List.eraseIdx_eq_take_drop_succ, List.eraseIdx_eq_take_drop_succ, List.set_take,
    List.set_eq_of_length_le (by simp [List.length_take]), List.drop_set,
    if_pos (by omega)]

theorem eraseIdx_set_lt {α : Type} (l : List α) (i j : Nat) (x : α) (hj : j < i)
    (hi : i ≤ l.length) : (l.set j x).eraseIdx i = (l.eraseIdx i).set j x := by
  rw [List.eraseIdx_eq_take_drop_succ, List.eraseIdx_eq_take_drop_succ, List.set_take,
    List.drop_set, if_pos (by omega), List.set_append,
    if_pos (by simp [List.length_take]; omega)]

theorem insertIdx_eq_take_cons_drop {α : Type} (l : List α) (n : Nat) (x : α)
    (h : n ≤ l.length) : l.insertIdx n x = l.take n ++ x :: l.drop n := by
  induction l generalizing n with
  | nil =>
    have : n = 0 := by simpa using h
    subst this
    simp
  | cons a as ih =>
    cases n with
    | zero => simp
    | succ m =>
      rw [List.insertIdx_succ_cons, List.take_succ_cons, List.drop_succ_cons,
        List.cons_append, ih m (by simpa using h)]

theorem getD_insertIdx_lt {α : Type} [Inhabited α] (l : List α) (n k : Nat) (x : α)
    (hk : k < n) (hkl : k < l.length) (hnl : n ≤ l.length) :
    (l.insertIdx n x).getD k default = l.getD k default := by
  rw [insertIdx_eq_take_cons_drop l n x hnl, List.getD_eq_getElem _ _ hkl,
    List.getD_eq_getElem _ _
      (by simp [List.length_append, List.length_take]; omega)]
  rw [List.getElem_append_left (by simp [List.length_take]; omega)]
  simp [List.getElem_take]

theorem getD_insertIdx_self {α : Type} [Inhabited α] (l : List α) (n : Nat) (x : α)
    (h : n ≤ l.length) : (l.insertIdx n x).getD n default = x := by
  have hlen : n < (l.insertIdx n x).length := by
    rw [List.length_insertIdx n l h]
    omega
  rw [List.getD_eq_getElem _ _ hlen, List.getElem_insertIdx_self l x n h]

/-! ### Claim C8 -/

/-- C8: `Search::find_relative_start` returns `None` for every search stack
and cursor height — the early-return guard `r >= l`, with `l = 0` and `r` an
unsigned integer, holds for every result-set length (not only the
fewer-than-2-element case), so the binary search for the closest previous
match is always skipped. -/
theorem claim_C8_find_relative_start_always_none (s : SearchState)
    (curr_height : Nat) : s.find_relative_start curr_height = none := by
  unfold SearchState.find_relative_start
  cases hs : s.stack.get? (s.stack.length - 1) with
  | none => rfl
  | some ps => simp

/-! ### Claim C10 -/

/-- C10: on a non-empty line, `update_line_delete` at `pos.width = 0` does
not leave the line unchanged: `is_tab` is false below width 4 and the
removal index `pos.width.saturating_sub(1)` is 0, so the line's first
fragment is removed while the cursor width stays 0. -/
theorem claim_C10_delete_at_zero (b : Buffer) (pos : Position)
    (hh : pos.height < b.text.length)
    (hw : pos.width = 0)
    (hne : (b.text.getD pos.height default).string ≠ []) :
    ((b.update_line_delete pos).1.text.getD pos.height default).string =
        (b.text.getD pos.height default).string.tail ∧
      (b.update_line_delete pos).2.width = 0 ∧
      ((b.update_line_delete pos).1.text.getD pos.height default).string ≠
        (b.text.getD pos.height default).string := by
  have htab : b.is_tab pos = false := by
    unfold Buffer.is_tab
    rw [if_pos (by omega)]
  unfold Buffer.update_line_delete
  rw [htab]
  simp only [Bool.false_eq_true, if_false]
  refine ⟨?_, ?_, ?_⟩
  · rw [getD_set_self _ _ _ hh]
    simp only [Line.generate_raw_string, hw]
    cases hcase : (b.text.getD pos.height default).string with
    | nil => simp
    | cons a as => simp [List.eraseIdx_cons_zero]
  · simp [Position.left, hw]
  · rw [getD_set_self _ _ _ hh]
    simp only [Line.generate_raw_string, hw]
    intro hcontra
    have hlen := congrArg List.length hcontra
    simp only [List.length_eraseIdx] at hlen
    have hpos : 0 < (b.text.getD pos.height default).string.length :=
      List.length_pos.mpr hne
    simp only [if_pos hpos] at hlen
    omega

/-! ### Claim C3 -/

theorem erase_step {α : Type} (l : List α) (i k : Nat) (hik : i < k)
    (hk : k ≤ l.length) :
    (l.take (i + 1) ++ l.drop k).eraseIdx i = l.take i ++ l.drop k := by
  have hlt : (l.take (i + 1)).length = i + 1 := by
    simp [List.length_take]
    omega
  rw [List.eraseIdx_eq_take_drop_succ,
    List.take_append_of_le_length (by omega),
    List.drop_append_of_le_length (by omega),
    List.take_take, List.drop_eq_nil_of_le (by omega)]
  simp [Nat.min_def]

theorem erase_four {α : Type} (l : List α) (w : Nat) (h4 : 4 ≤ w)
    (hw : w ≤ l.length) :
    (((l.eraseIdx (w - 1)).eraseIdx (w - 2)).eraseIdx (w - 3)).eraseIdx (w - 4) =
      l.take (w - 4) ++ l.drop w := by
  obtain ⟨j, rfl⟩ : ∃ j, w = j + 4 := ⟨w - 4, by omega⟩
  have e1 : l.eraseIdx (j + 4 - 1) = l.take (j + 3) ++ l.drop (j + 4) := by
    have h1 : j + 4 - 1 = j + 3 := by omega
    rw [h1, List.eraseIdx_eq_take_drop_succ]
  have h2 : j + 4 - 2 = j + 2 := by omega
  have h3 : j + 4 - 3 = j + 1 := by omega
  have h4' : j + 4 - 4 = j := by omega
  have a3 : j + 2 + 1 = j + 3 := by omega
  have a2 : j + 1 + 1 = j + 2 := by omega
  rw [e1, h2, h3, h4']
  rw [← a3, erase_step l (j + 2) (j + 4) (by omega) hw]
  rw [← a2, erase_step l (j + 1) (j + 4) (by omega) hw]
  rw [erase_step l j (j + 4) (by omega) hw]

theorem insertSpaces_eq (n w : Nat) (l : List TextFragment) (h : w ≤ l.length) :
    insertSpaces n w l =
      l.take w ++ List.replicate n (TextFragment.ofChar ' ') ++ l.drop w := by
  induction n generalizing l with
  | zero => simp [insertSpaces]
  | succ m ih =>
    rw [insertSpaces,
      ih (l.insertIdx w (TextFragment.ofChar ' '))
        (by rw [List.length_insertIdx _ _ h]; omega),
      insertIdx_eq_take_cons_drop l w _ h]
    have hlt : (l.take w).length = w := by
      simp [List.length_take]
      omega
    rw [List.take_append_of_le_length (by omega),
      List.drop_append_of_le_length (by omega),
      List.take_take, List.drop_eq_nil_of_le (by omega)]
    have : (List.replicate m (TextFragment.ofChar ' ')) ++
        (TextFragment.ofChar ' ' :: l.drop w) =
        (List.replicate (m + 1) (TextFragment.ofChar ' ')) ++ l.drop w := by
      rw [List.replicate_succ', List.append_assoc]
      simp
    simp only [List.nil_append, List.append_assoc] at this ⊢
    rw [this]
    simp [Nat.min_def]

/-- The fragment list `Buffer::insert_tab(pos, 1)` produces at `pos.height`:
the original fragments with four space fragments inserted at `pos.width`
(the raw string is regenerated alongside). -/
theorem insert_tab_string (b : Buffer) (pos : Position)
    (hh : pos.height < b.text.length)
    (hw : pos.width ≤ (b.text.getD pos.height default).string.length) :
    ((b.insert_tab pos 1).text.getD pos.height default).string =
      (b.text.getD pos.height default).string.take pos.width ++
        List.replicate 4 (TextFragment.ofChar ' ') ++
        (b.text.getD pos.height default).string.drop pos.width := by
  have hne : b.text.isEmpty = false := by
    cases htext : b.text with
    | nil => rw [htext] at hh; simp at hh
    | cons a as => simp
  unfold Buffer.insert_tab modifyLine
  rw [hne]
  simp only [Bool.false_eq_true, if_false]
  rw [List.set_set,
    getD_set_self _ _ _ (by simpa using hh),
    getD_set_self _ _ _ hh]
  have hc : pos.width + 4 * 1 - pos.width = 4 := by omega
  rw [hc]
  simp only [Line.generate_raw_string]
  exact insertSpaces_eq 4 pos.width _ hw

theorem drop_append_len {α : Type} (A B : List α) (n : Nat) (h : A.length = n) :
    (A ++ B).drop n = B := by
  subst h
  simp

theorem take_append_len {α : Type} (A B : List α) (n : Nat) (h : A.length = n) :
    (A ++ B).take n = A := by
  subst h
  simp

/-- The "tab-aware backspace" scenario: inserting one tab and issuing one
delete at the advanced cursor removes all four space fragments atomically
and restores both the fragment sequence and the cursor column. -/
theorem insert_tab_then_delete (b : Buffer) (pos : Position)
    (hh : pos.height < b.text.length)
    (hwlen : pos.width ≤ (b.text.getD pos.height default).string.length) :
    (((b.insert_tab pos 1).update_line_delete
        { pos with width := pos.width + 4 }).1.text.getD pos.height default).string =
      (b.text.getD pos.height default).string ∧
    ((b.insert_tab pos 1).update_line_delete
        { pos with width := pos.width + 4 }).2.width = pos.width := by
  have hstr := insert_tab_string b pos hh hwlen
  have hne : b.text.isEmpty = false := by
    cases htext : b.text with
    | nil => rw [htext] at hh; simp at hh
    | cons a as => simp
  have hlen1 : (b.insert_tab pos 1).text.length = b.text.length := by
    unfold Buffer.insert_tab modifyLine
    rw [hne]
    simp
  have hAlen : ((b.text.getD pos.height default).string.take pos.width).length =
      pos.width := by
    rw [List.length_take]
    omega
  have hARlen : ((b.text.getD pos.height default).string.take pos.width ++
      List.replicate 4 (TextFragment.ofChar ' ')).length = pos.width + 4 := by
    rw [List.length_append, hAlen, List.length_replicate]
  have hlenstr : ((b.insert_tab pos 1).text.getD pos.height default).string.length =
      (b.text.getD pos.height default).string.length + 4 := by
    rw [hstr]
    simp only [List.length_append, List.length_take, List.length_replicate,
      List.length_drop]
    omega
  have hproj : ({ pos with width := pos.width + 4 } : Position).width =
      pos.width + 4 := rfl
  have htab : (b.insert_tab pos 1).is_tab { pos with width := pos.width + 4 } = true := by
    unfold Buffer.is_tab
    rw [hproj]
    rw [if_neg (by omega)]
    simp only
    rw [if_pos (by rw [hlenstr]; omega)]
    have h44 : pos.width + 4 - 4 = pos.width := by omega
    have hdrop : (((b.insert_tab pos 1).text.getD pos.height default).string.drop
        (pos.width + 4 - 4)) =
        List.replicate 4 (TextFragment.ofChar ' ') ++
          (b.text.getD pos.height default).string.drop pos.width := by
      rw [hstr, h44, List.append_assoc, drop_append_len _ _ _ hAlen]
    rw [hdrop, List.take_append_of_le_length (by simp), List.take_replicate]
    simp [List.all_eq_true, List.mem_replicate, TextFragment.ofChar, charDisplayWidth]
  unfold Buffer.update_line_delete
  rw [htab]
  simp only [if_true]
  constructor
  · rw [getD_set_self _ _ _ (by rw [hlen1]; exact hh)]
    show (((((b.insert_tab pos 1).text.getD pos.height default).string.eraseIdx
        (pos.width + 4 - 1)).eraseIdx (pos.width + 4 - 2)).eraseIdx
        (pos.width + 4 - 3)).eraseIdx (pos.width + 4 - 4) =
      (b.text.getD pos.height default).string
    rw [erase_four _ _ (by omega) (by rw [hlenstr]; omega), hstr]
    have h44 : pos.width + 4 - 4 = pos.width := by omega
    rw [h44, drop_append_len _ _ _ hARlen,
      List.take_append_of_le_length (by rw [hARlen]; omega),
      take_append_len _ _ _ hAlen, List.take_append_drop]
  · simp [Position.left]

/-- C3: for every buffer and in-range cursor position, `update_line_delete`
either (a) — when the four fragments immediately left of `pos.width` all
hold a tab-representing space — removes those four fragments as one unit
and moves the cursor left by 4, or (b) removes exactly the fragment at
`pos.width - 1` and moves the cursor left by that fragment's render width;
and inserting a tab (`insert_tab(pos, 1)`) followed by one delete at the
advanced cursor removes all four space fragments at once, restoring the
line and the cursor column. -/
theorem claim_C3_update_line_delete (b : Buffer) (pos : Position)
    (hh : pos.height < b.text.length)
    (_hw1 : 1 ≤ pos.width)
    (hwlen : pos.width ≤ (b.text.getD pos.height default).string.length) :
    ((4 ≤ pos.width ∧
        ((((b.text.getD pos.height default).string.drop (pos.width - 4)).take 4).all
          (fun f => f.grapheme = [' '])) = true) →
      (((b.update_line_delete pos).1.text.getD pos.height default).string =
          (b.text.getD pos.height default).string.take (pos.width - 4) ++
            (b.text.getD pos.height default).string.drop pos.width ∧
        (b.update_line_delete pos).2.width = pos.width - 4)) ∧
    ((¬ (4 ≤ pos.width ∧
        ((((b.text.getD pos.height default).string.drop (pos.width - 4)).take 4).all
          (fun f => f.grapheme = [' '])) = true)) →
      (((b.update_line_delete pos).1.text.getD pos.height default).string =
          (b.text.getD pos.height default).string.eraseIdx (pos.width - 1) ∧
        (b.update_line_delete pos).2.width =
          pos.width -
            ((b.text.getD pos.height default).string.getD (pos.width - 1)
              default).render_width.cols)) ∧
    (((b.insert_tab pos 1).update_line_delete
        { pos with width := pos.width + 4 }).1.text.getD pos.height default).string =
      (b.text.getD pos.height default).string ∧
    ((b.insert_tab pos 1).update_line_delete
        { pos with width := pos.width + 4 }).2.width = pos.width := by
  refine ⟨?_, ?_, (insert_tab_then_delete b pos hh hwlen).1,
    (insert_tab_then_delete b pos hh hwlen).2⟩
  · rintro ⟨h4, hall⟩
    have htab : b.is_tab pos = true := by
      unfold Buffer.is_tab
      rw [if_neg (by omega), if_pos hwlen]
      exact hall
    unfold Buffer.update_line_delete
    rw [htab]
    simp only [if_true]
    constructor
    · rw [getD_set_self _ _ _ hh]
      exact erase_four _ _ h4 hwlen
    · simp [Position.left]
  · intro hnot
    have htab : b.is_tab pos = false := by
      unfold Buffer.is_tab
      by_cases h4 : pos.width < 4
      · rw [if_pos h4]
      · rw [if_neg h4, if_pos hwlen]
        by_contra hcontra
        simp only [Bool.not_eq_false] at hcontra
        exact hnot ⟨by omega, hcontra⟩
    unfold Buffer.update_line_delete
    rw [htab]
    simp only [Bool.false_eq_true, if_false]
    constructor
    · rw [getD_set_self _ _ _ hh]
      simp [Line.generate_raw_string]
    · simp [Position.left]

/-- Witness for C3: the line holds four spaces then `x`; deleting at column
4 (all four left fragments are spaces) moves the cursor to column 0. -/
theorem claim_C3_witness :
    (1 : Nat) ≤ 4 ∧
    ((Buffer.mk [Line.fromChars [' ', ' ', ' ', ' ', 'x']] none true).update_line_delete
        ⟨0, 4, 0⟩).2.width = 0 :=
  ⟨by decide,
    ((claim_C3_update_line_delete
        (Buffer.mk [Line.fromChars [' ', ' ', ' ', ' ', 'x']] none true)
        ⟨0, 4, 0⟩ (by decide) (by decide) (by decide)).1 (by decide)).2⟩

/-- Witness for C10: deleting at column 0 of the line `ab` removes the
first fragment and leaves the cursor at column 0. -/
theorem claim_C10_witness :
    ((Buffer.mk [Line.fromChars ['a', 'b']] none true).update_line_delete
        ⟨0, 0, 0⟩).2.width = 0 :=
  (claim_C10_delete_at_zero (Buffer.mk [Line.fromChars ['a', 'b']] none true)
    ⟨0, 0, 0⟩ (by decide) (by decide) (by decide)).2.1

/-! ### Claim C2 -/

/-- C2 as stated is false: `insert_tab` and the tab branch of
`update_line_delete` leave `is_saved` untouched.  A buffer with
`is_saved = true` keeps it `true` through `insert_tab` at a valid position
and through a tab-aware delete of four spaces. -/
theorem claim_C2_counterexample :
    ((Buffer.mk [Line.fromChars ['a']] none true).insert_tab ⟨0, 0, 0⟩ 1).is_saved =
        true ∧
      ((Buffer.mk [Line.fromChars [' ', ' ', ' ', ' ']] none true).update_line_delete
        ⟨0, 4, 0⟩).1.is_saved = true := by
  decide

/-- C2 (amended): every mutating buffer operation except `insert_tab` and
the tab-deletion branch of `update_line_delete` sets `is_saved` to false
(those two leave it unchanged), and among the buffer operations only a
successful `save()` sets it to true (it fails without a filename). -/
theorem claim_C2_amended_is_saved (b : Buffer) (pos : Position) (c : Char)
    (n li : Nat) (_hh : pos.height < b.text.length) :
    (b.update_line_insert pos c).1.is_saved = false ∧
    (b.is_tab pos = false → (b.update_line_delete pos).1.is_saved = false) ∧
    (b.is_tab pos = true → (b.update_line_delete pos).1.is_saved = b.is_saved) ∧
    (b.split_line pos).is_saved = false ∧
    (b.join_line li).is_saved = false ∧
    (b.new_line li).is_saved = false ∧
    (b.insert_tab pos n).is_saved = b.is_saved ∧
    (∀ b1 out, b.save = some (b1, out) → b1.is_saved = true) ∧
    (b.filename = none → b.save = none) := by
  refine ⟨rfl, ?_, ?_, rfl, rfl, ?_, ?_, ?_, ?_⟩
  · intro htab
    unfold Buffer.update_line_delete
    rw [htab]
    simp
  · intro htab
    unfold Buffer.update_line_delete
    rw [htab]
    simp
  · unfold Buffer.new_line
    split <;> rfl
  · rfl
  · intro b1 out hsave
    unfold Buffer.save at hsave
    cases hf : b.filename with
    | none => rw [hf] at hsave; exact absurd hsave (by simp)
    | some f =>
      rw [hf] at hsave
      simp only [Option.some.injEq, Prod.mk.injEq] at hsave
      rw [← hsave.1]
  · intro hf
    unfold Buffer.save
    rw [hf]

/-- Witness for C2 (amended): inserting `b` into the one-line buffer `a`
clears `is_saved`. -/
theorem claim_C2_witness :
    ((Buffer.mk [Line.fromChars ['a']] (some ['f']) true).update_line_insert
        ⟨0, 1, 0⟩ 'b').1.is_saved = false :=
  (claim_C2_amended_is_saved (Buffer.mk [Line.fromChars ['a']] (some ['f']) true)
    ⟨0, 1, 0⟩ 'b' 1 0 (by decide)).1

/-! ### Claim C7 -/

/-- C7: `split_line` at an in-range position followed by `join_line` at the
row the split created restores the buffer's fragment sequences exactly —
the suffix is moved to a new line, then appended back and the new line
removed. -/
theorem claim_C7_split_then_join (b : Buffer) (pos : Position)
    (hh : pos.height < b.text.length)
    (_hw : pos.width ≤ (b.text.getD pos.height default).string.length) :
    ((b.split_line pos).join_line (pos.height + 1)).text.map (fun l => l.string) =
      b.text.map (fun l => l.string) := by
  simp only [Buffer.split_line, Buffer.join_line, modifyLine]
  set t := b.text with ht
  set h := pos.height with hhh
  set w := pos.width with hww
  set ln := t.getD h default with hln
  set nl : Line := { string := ln.string.drop w, raw_string := [] } with hnl
  have hlen_ins : (t.insertIdx (h + 1) nl).length = t.length + 1 :=
    List.length_insertIdx (h + 1) t (by omega)
  have hg1 : (t.insertIdx (h + 1) nl).getD h default = ln :=
    getD_insertIdx_lt t (h + 1) h nl (by omega) hh (by omega)
  rw [hg1]
  set A : Line := { ln with string := ln.string.take w } with hA
  have hg2 : ((t.insertIdx (h + 1) nl).set h A).getD (h + 1) default = nl := by
    rw [getD_set_ne _ _ _ _ (by omega)]
    exact getD_insertIdx_self t (h + 1) nl (by omega)
  rw [hg2]
  set B : Line := nl.generate_raw_string with hB
  have hg3 : (((t.insertIdx (h + 1) nl).set h A).set (h + 1) B).getD (h + 1)
      default = B := by
    apply getD_set_self
    simp only [List.length_set, hlen_ins]
    omega
  rw [hg3]
  have herase : ((((t.insertIdx (h + 1) nl).set h A).set (h + 1) B).eraseIdx
      (h + 1)) = t.set h A := by
    rw [eraseIdx_set_self,
      eraseIdx_set_lt _ (h + 1) h A (by omega) (by rw [hlen_ins]; omega),
      List.eraseIdx_insertIdx]
  rw [herase]
  have hsub : h + 1 - 1 = h := by omega
  rw [hsub]
  have hg4 : (t.set h A).getD h default = A := getD_set_self _ _ _ hh
  rw [hg4]
  have hBs : B.string = ln.string.drop w := rfl
  have hAs : A.string ++ B.string = ln.string := by
    rw [hBs]
    exact List.take_append_drop w ln.string
  have hg5 : ((t.set h A).set h { A with string := A.string ++ B.string }).getD h
      default = { A with string := A.string ++ B.string } :=
    getD_set_self _ _ _ (by simp only [List.length_set]; omega)
  rw [hg5, List.set_set, List.set_set, List.map_set]
  have hgen : ({ A with string := A.string ++ B.string } : Line).generate_raw_string.string =
      ln.string := by
    simp only [Line.generate_raw_string]
    exact hAs
  rw [hgen]
  have hmap : (t.map (fun l => l.string)).getD h default = ln.string := by
    rw [List.getD_eq_getElem _ _ (by simp only [List.length_map]; omega),
      List.getElem_map, hln, List.getD_eq_getElem _ _ hh]
  rw [← hmap]
  exact set_getD_self _ _ (by simp only [List.length_map]; omega)

/-- Witness for C7: splitting `abc` at column 1 and joining row 1 restores
the single line. -/
theorem claim_C7_witness :
    (((Buffer.mk [Line.fromChars ['a', 'b', 'c']] none true).split_line
        ⟨0, 1, 0⟩).join_line 1).text.map (fun l => l.string) =
      (Buffer.mk [Line.fromChars ['a', 'b', 'c']] none true).text.map
        (fun l => l.string) :=
  claim_C7_split_then_join (Buffer.mk [Line.fromChars ['a', 'b', 'c']] none true)
    ⟨0, 1, 0⟩ (by decide) (by decide)

/-! ### Claim C4 -/

theorem byteLen_append (a b : List Char) : byteLen (a ++ b) = byteLen a + byteLen b := by
  simp [byteLen, bytesOf]

theorem byteLen_cons (c : Char) (g : List Char) :
    byteLen (c :: g) = byteLen [c] + byteLen g := by
  have h : c :: g = [c] ++ g := rfl
  rw [h, byteLen_append]

theorem rustSplitGo_zero (pat s : List Char) : rustSplitGo pat 0 s = [s] := rfl

theorem rustSplitGo_succ (pat : List Char) (m : Nat) (s : List Char) :
    rustSplitGo pat (m + 1) s =
      if pat ≠ [] ∧ pat.isPrefixOf s then
        [] :: rustSplitGo pat m (s.drop pat.length)
      else
        match s with
        | [] => [[]]
        | c :: rest =>
          match rustSplitGo pat m rest with
          | [] => [[c]]
          | g :: gs => (c :: g) :: gs := rfl

theorem nonOverlapOccsGo_zero (pat s : List Char) (ofs : Nat) :
    nonOverlapOccsGo pat 0 s ofs = [] := rfl

theorem nonOverlapOccsGo_succ (pat : List Char) (m : Nat) (s : List Char)
    (ofs : Nat) :
    nonOverlapOccsGo pat (m + 1) s ofs =
      if pat ≠ [] ∧ pat.isPrefixOf s then
        ofs :: nonOverlapOccsGo pat m (s.drop pat.length) (ofs + byteLen pat)
      else
        match s with
        | [] => []
        | c :: rest => nonOverlapOccsGo pat m rest (ofs + byteLen [c]) := rfl

theorem rustSplitGo_ne_nil (pat : List Char) (fuel : Nat) (s : List Char) :
    rustSplitGo pat fuel s ≠ [] := by
  cases fuel with
  | zero => simp [rustSplitGo_zero]
  | succ m =>
    rw [rustSplitGo_succ]
    split
    · simp
    · cases s with
      | nil => simp
      | cons c rest =>
        simp only
        split <;> simp

/-- The running accumulation of occurrence columns: each piece's byte length
is added to the running offset, then the pattern's, piece after piece. -/
def widthsFrom (patlen ofs : Nat) : List (List Char) → List Nat
  | [] => []
  | p :: rest => (ofs + byteLen p) :: widthsFrom patlen (ofs + byteLen p + patlen) rest

/-- The `for slice in string_split` loop body of `find_search_widths`, as a
standalone accumulator. -/
def widthsAux (patlen run : Nat) : List (List Char) → List Nat
  | [] => []
  | p :: rest =>
    (run + patlen + byteLen p) :: widthsAux patlen (run + patlen + byteLen p) rest

theorem foldl_widths (patlen : Nat) (pieces : List (List Char)) (acc : List Nat)
    (run : Nat) :
    (pieces.foldl
      (fun (p : List Nat × Nat) slice =>
        (p.1 ++ [p.2 + patlen + byteLen slice], p.2 + patlen + byteLen slice))
      (acc, run)).1 = acc ++ widthsAux patlen run pieces := by
  induction pieces generalizing acc run with
  | nil => simp [widthsAux]
  | cons p rest ih =>
    rw [List.foldl_cons]
    simp only
    rw [ih, widthsAux, List.append_assoc]
    rfl

theorem widthsAux_eq_widthsFrom (patlen run : Nat) (l : List (List Char)) :
    widthsAux patlen run l = widthsFrom patlen (run + patlen) l := by
  induction l generalizing run with
  | nil => rfl
  | cons p rest ih =>
    rw [widthsAux, widthsFrom, ih]

/-- The byte-length accumulation over the split pieces lists the
non-overlapping occurrence columns followed by the total byte length. -/
theorem widthsFrom_rustSplitGo (pat : List Char) (hp : pat ≠ []) :
    ∀ fuel s, s.length < fuel → ∀ ofs,
      widthsFrom (byteLen pat) ofs (rustSplitGo pat fuel s) =
        nonOverlapOccsGo pat fuel s ofs ++ [ofs + byteLen s] := by
  intro fuel
  induction fuel with
  | zero =>
    intro s hs
    exact absurd hs (Nat.not_lt_zero _)
  | succ m ih =>
    intro s hs ofs
    rw [rustSplitGo_succ, nonOverlapOccsGo_succ]
    by_cases hpre : pat ≠ [] ∧ pat.isPrefixOf s
    · rw [if_pos hpre, if_pos hpre]
      have hfull : pat <+: s := List.isPrefixOf_iff_prefix.mp hpre.2
      have hsplit : pat ++ s.drop pat.length = s := List.prefix_iff_eq_append.mp hfull
      have hlenp : 1 ≤ pat.length := List.length_pos.mpr hp
      have hplen : pat.length ≤ s.length := hfull.length_le
      have hlens : (s.drop pat.length).length < m := by
        simp only [List.length_drop]
        omega
      rw [widthsFrom]
      have hb0 : byteLen ([] : List Char) = 0 := rfl
      rw [hb0, Nat.add_zero, ih (s.drop pat.length) hlens (ofs + byteLen pat)]
      have hbs : byteLen s = byteLen pat + byteLen (s.drop pat.length) := by
        conv_lhs => rw [← hsplit]
        rw [byteLen_append]
      rw [hbs, List.cons_append]
      all_goals rw [Nat.add_assoc]
    · rw [if_neg hpre, if_neg hpre]
      cases s with
      | nil =>
        simp [widthsFrom, byteLen, bytesOf]
      | cons c rest =>
        simp only
        have hrest := ih rest (by simp only [List.length_cons] at hs; omega)
          (ofs + byteLen [c])
        cases hsp : rustSplitGo pat m rest with
        | nil => exact absurd hsp (rustSplitGo_ne_nil pat m rest)
        | cons g gs =>
          show widthsFrom (byteLen pat) ofs ((c :: g) :: gs) =
            nonOverlapOccsGo pat m rest (ofs + byteLen [c]) ++
              [ofs + byteLen (c :: rest)]
          rw [hsp, widthsFrom] at hrest
          rw [widthsFrom, byteLen_cons c g, byteLen_cons c rest]
          have e1 : ofs + (byteLen [c] + byteLen g) = ofs + byteLen [c] + byteLen g := by
            omega
          have e2 : ofs + (byteLen [c] + byteLen rest) =
              ofs + byteLen [c] + byteLen rest := by
            omega
          rw [e1, e2]
          exact hrest

theorem nonOverlapOccsGo_ne_nil_substring (pat : List Char) :
    ∀ fuel s ofs, nonOverlapOccsGo pat fuel s ofs ≠ [] → pat <:+: s := by
  intro fuel
  induction fuel with
  | zero =>
    intro s ofs h
    rw [nonOverlapOccsGo_zero] at h
    exact absurd rfl h
  | succ m ih =>
    intro s ofs h
    rw [nonOverlapOccsGo_succ] at h
    by_cases hpre : pat ≠ [] ∧ pat.isPrefixOf s
    · exact (List.isPrefixOf_iff_prefix.mp hpre.2).isInfix
    · rw [if_neg hpre] at h
      cases s with
      | nil => simp at h
      | cons c rest =>
        simp only at h
        exact List.infix_cons (ih rest (ofs + byteLen [c]) h)

theorem find_search_widths_eq (b : Buffer) (pat : List Char) (hp : pat ≠ [])
    (i : Nat) :
    b.find_search_widths pat i =
      nonOverlapOccs pat ((b.text.getD i default).raw_string) 0 := by
  unfold Buffer.find_search_widths
  simp only
  cases hsp : rustSplit pat ((b.text.getD i default).raw_string) with
  | nil => exact absurd hsp (rustSplitGo_ne_nil pat _ _)
  | cons p rest =>
    simp only [List.headD_cons, List.drop_one, List.tail_cons]
    rw [foldl_widths, widthsAux_eq_widthsFrom]
    have hfrom : byteLen p :: widthsFrom (byteLen pat) (byteLen p + byteLen pat) rest =
        widthsFrom (byteLen pat) 0 (p :: rest) := by
      rw [widthsFrom, Nat.zero_add]
    rw [List.singleton_append, hfrom, ← hsp]
    have hmain := widthsFrom_rustSplitGo pat hp
      (((b.text.getD i default).raw_string).length + 1)
      ((b.text.getD i default).raw_string) (by omega) 0
    rw [show rustSplit pat ((b.text.getD i default).raw_string) =
        rustSplitGo pat (((b.text.getD i default).raw_string).length + 1)
          ((b.text.getD i default).raw_string) from rfl,
      hmain, List.dropLast_concat]
    rfl

/-- C4: `Buffer::search` returns, for each line containing the pattern as a
substring, the byte column of every leftmost non-overlapping occurrence of
the pattern in that line — it agrees with the direct occurrence-scan
reference `searchSpec` for every buffer and non-empty pattern; in
particular `search("ab")` on the single line `"xabyabz"` returns the column
offsets 1 and 4. -/
theorem claim_C4_search (b : Buffer) (pat : List Char) (hp : pat ≠ []) :
    b.search pat = b.searchSpec pat ∧
    (Buffer.mk [Line.fromChars ['x', 'a', 'b', 'y', 'a', 'b', 'z']] none
        true).search ['a', 'b'] = [⟨0, 1, 0⟩, ⟨0, 4, 0⟩] := by
  refine ⟨?_, by decide⟩
  unfold Buffer.search Buffer.searchSpec
  apply List.flatMap_congr
  intro x hx
  have hmem : b.text[x.1]? = some x.2 := List.mem_enum_iff_getElem?.mp hx
  have hgd : b.text.getD x.1 default = x.2 := by
    rw [List.getD_eq_getElem?_getD, hmem]
    rfl
  by_cases hin : pat <:+: x.2.raw_string
  · rw [if_pos (by simpa using hin), find_search_widths_eq b pat hp x.1, hgd]
  · rw [if_neg (by simpa using hin)]
    have hocc : nonOverlapOccs pat x.2.raw_string 0 = [] := by
      by_contra hne
      exact hin (nonOverlapOccsGo_ne_nil_substring pat _ _ _ hne)
    rw [hocc]
    rfl

/-- Witness for C4: the concrete search of the claim. -/
theorem claim_C4_witness :
    (Buffer.mk [Line.fromChars ['x', 'a', 'b', 'y', 'a', 'b', 'z']] none
        true).search ['a', 'b'] =
      (Buffer.mk [Line.fromChars ['x', 'a', 'b', 'y', 'a', 'b', 'z']] none
        true).searchSpec ['a', 'b'] :=
  (claim_C4_search
    (Buffer.mk [Line.fromChars ['x', 'a', 'b', 'y', 'a', 'b', 'z']] none true)
    ['a', 'b'] (by decide)).1

/-! ### Claim C6 -/

theorem splitNl_nil : splitNl [] = [[]] := rfl

theorem splitNl_cons (c : Char) (rest : List Char) :
    splitNl (c :: rest) =
      if c = '\n' then [] :: splitNl rest
      else
        match splitNl rest with
        | [] => [[c]]
        | g :: gs => (c :: g) :: gs := rfl

theorem splitNl_append_newline (r tail : List Char) (hr : '\n' ∉ r) :
    splitNl (r ++ '\n' :: tail) = r :: splitNl tail := by
  induction r with
  | nil =>
    rw [List.nil_append, splitNl_cons, if_pos rfl]
  | cons c cs ih =>
    have hc : c ≠ '\n' := fun h => hr (by rw [h]; exact List.mem_cons_self _ _)
    rw [List.cons_append, splitNl_cons, if_neg hc,
      ih (fun h => hr (List.mem_cons_of_mem _ h))]

theorem rustLines_flatten (raws : List (List Char))
    (h : ∀ r ∈ raws, '\n' ∉ r) :
    rustLines ((raws.map (fun r => r ++ ['\n'])).flatten) = raws := by
  have hsplit : splitNl ((raws.map (fun r => r ++ ['\n'])).flatten) =
      raws ++ [[]] := by
    induction raws with
    | nil => rfl
    | cons r rs ih =>
      rw [List.map_cons, List.flatten_cons]
      have happ : (r ++ ['\n']) ++ ((rs.map (fun r => r ++ ['\n'])).flatten) =
          r ++ ('\n' :: (rs.map (fun r => r ++ ['\n'])).flatten) := by
        simp
      rw [happ, splitNl_append_newline r _ (h r (List.mem_cons_self _ _)),
        ih (fun x hx => h x (List.mem_cons_of_mem _ hx)), List.cons_append]
  unfold rustLines
  rw [hsplit]
  rw [if_pos (List.getLast?_concat raws)]
  exact List.dropLast_concat

theorem fromChars_raw (s : List Char) : (Line.fromChars s).raw_string = s := by
  simp only [Line.fromChars, Line.generate_raw_string, List.map_map]
  induction s with
  | nil => rfl
  | cons c cs ih =>
    rw [List.map_cons, List.flatten_cons]
    show TextFragment.grapheme (TextFragment.ofChar c) ++ _ = c :: cs
    rw [show (TextFragment.ofChar c).grapheme = [c] from rfl]
    rw [List.cons_append, List.nil_append]
    exact congrArg (c :: ·) ih

theorem flatten_newline_getLast (lines : List Line) (hne : lines ≠ []) :
    ((lines.map (fun l => l.to_string ++ ['\n'])).flatten).getLast? = some '\n' := by
  induction lines with
  | nil => exact absurd rfl hne
  | cons l rest ih =>
    rw [List.map_cons, List.flatten_cons]
    cases hr : rest with
    | nil =>
      subst hr
      simp
    | cons l2 rest2 =>
      subst hr
      have h2 := ih (by simp)
      rw [List.getLast?_append_of_ne_nil _
        (by intro hcon; rw [hcon] at h2; simp at h2)]
      exact h2

theorem saveOutput_getLast (b : Buffer) (hne : b.text ≠ []) :
    (b.saveOutput).getLast? = some '\n' := by
  unfold Buffer.saveOutput
  exact flatten_newline_getLast b.text hne

/-- C6: writing a buffer and reloading the written bytes yields identical
`raw_string` content per line (the trailing-newline normalization is what
`str::lines` performs on load), the reloaded buffer is marked saved, and
the written stream is each line's raw text followed by a newline — in
particular it ends with a newline even after the last line. -/
theorem claim_C6_save_load_roundtrip (b : Buffer) (fname : List Char)
    (h : ∀ l ∈ b.text, '\n' ∉ l.raw_string) :
    (Buffer.load fname b.saveOutput).text.map (fun l => l.raw_string) =
        b.text.map (fun l => l.raw_string) ∧
      (Buffer.load fname b.saveOutput).is_saved = true ∧
      b.saveOutput = ((b.text.map (fun l => l.raw_string)).map
        (fun r => r ++ ['\n'])).flatten ∧
      (b.text ≠ [] → (b.saveOutput).getLast? = some '\n') := by
  have hout : b.saveOutput = ((b.text.map (fun l => l.raw_string)).map
      (fun r => r ++ ['\n'])).flatten := by
    unfold Buffer.saveOutput Line.to_string
    rw [List.map_map]
    rfl
  refine ⟨?_, rfl, hout, saveOutput_getLast b⟩
  show ((rustLines b.saveOutput).map Line.fromChars).map (fun l => l.raw_string) =
    b.text.map (fun l => l.raw_string)
  rw [hout, rustLines_flatten (b.text.map (fun l => l.raw_string))
    (by intro r hr
        obtain ⟨l, hl, rfl⟩ := List.mem_map.mp hr
        exact h l hl)]
  rw [List.map_map]
  have hcomp : ∀ s ∈ b.text.map (fun l => l.raw_string),
      ((fun l => l.raw_string) ∘ Line.fromChars) s = id s := by
    intro s _
    exact fromChars_raw s
  rw [List.map_congr_left hcomp, List.map_id]

/-- Witness for C6: a two-line buffer written and reloaded keeps its raw
lines. -/
theorem claim_C6_witness :
    ((Buffer.load ['f']
        (Buffer.mk [Line.fromChars ['h', 'i'], Line.fromChars []] (some ['f'])
          true).saveOutput).text.map (fun l => l.raw_string) =
      (Buffer.mk [Line.fromChars ['h', 'i'], Line.fromChars []] (some ['f'])
        true).text.map (fun l => l.raw_string)) :=
  (claim_C6_save_load_roundtrip
    (Buffer.mk [Line.fromChars ['h', 'i'], Line.fromChars []] (some ['f']) true)
    ['f'] (by decide)).1

/-! ### Claim C5 -/

/-- C5 as stated is false in its third conjunct: a queue whose characters
all map to tokens but whose combination is unrecognized — here `ww` — makes
`Execute` return `ContinueVim` to the vim run loop, i.e. it LEAVES the
ColonCommand sub-state (showing the error message) instead of remaining in
it. -/
theorem claim_C5_counterexample :
    queue_colon_step (Buffer.mk [] (some ['f']) true) ⟨10, 10⟩ ['w', 'w']
        .Execute =
      .Done .ContinueVim (Buffer.mk [] (some ['f']) true)
        [('I' :: 'n' :: 'v' :: 'a' :: 'l' :: 'i' :: 'd' :: [])] := by
  decide

/-- C5 (amended): after Enter parses the accumulated colon string, a lone
`q` on an unsaved buffer is rejected with a persistent status message and
the run loop stays in VimMode; `wq` (saving first) and `q!` end the whole
session; a string containing an unmappable character shows an error and
remains in the ColonCommand sub-state with the queue cleared, while a
parsed-but-unrecognized token combination shows an error and returns to
VimMode, leaving the ColonCommand sub-state. -/
theorem claim_C5_amended_colon_queue (b : Buffer) (size : Size) (q : List Char)
    (hf : b.filename.isSome = true) :
    (b.is_saved = false →
      eval_colon_queue b [.Quit] =
          some (.ContinueVimPersistError, b,
            [('n' :: 'o' :: 't' :: ' ' :: 's' :: 'a' :: 'v' :: 'e' :: 'd' :: [])]) ∧
        staysInVimMode .ContinueVimPersistError = true) ∧
    eval_colon_queue b [.Write, .Quit] =
      some (.ExitSession, { b with is_saved := true }, []) ∧
    eval_colon_queue b [.Quit, .Override] = some (.ExitSession, b, []) ∧
    (map_string_to_queue_vec q = none →
      queue_colon_step b size q .Execute =
        .Stay b size [] [('I' :: 'n' :: 'v' :: 'a' :: 'l' :: 'i' :: 'd' :: [])]) ∧
    (∀ a1 a2 : ColonQueueActions,
      ¬ ([a1, a2] = [ColonQueueActions.Write, ColonQueueActions.Quit] ∨
          [a1, a2] = [ColonQueueActions.Quit, ColonQueueActions.Override]) →
      eval_colon_queue b [a1, a2] =
          some (.ContinueVim, b,
            [('I' :: 'n' :: 'v' :: 'a' :: 'l' :: 'i' :: 'd' :: [])]) ∧
        staysInVimMode .ContinueVim = true) := by
  obtain ⟨f, hff⟩ := Option.isSome_iff_exists.mp hf
  refine ⟨?_, ?_, rfl, ?_, ?_⟩
  · intro hsaved
    constructor
    · unfold eval_colon_queue
      rw [hsaved]
      rfl
    · rfl
  · unfold eval_colon_queue Buffer.save
    rw [hff]
  · intro hq
    unfold queue_colon_step
    rw [hq]
  · intro a1 a2 hne
    cases a1 <;> cases a2 <;>
      first
      | exact absurd (Or.inl rfl) hne
      | exact absurd (Or.inr rfl) hne
      | exact ⟨rfl, rfl⟩

/-- Witness for C5 (amended): `q!` on a concrete unsaved buffer ends the
session. -/
theorem claim_C5_witness :
    eval_colon_queue (Buffer.mk [] (some ['f']) false)
        [ColonQueueActions.Quit, ColonQueueActions.Override] =
      some (ContinueState.ExitSession, Buffer.mk [] (some ['f']) false, []) :=
  (claim_C5_amended_colon_queue (Buffer.mk [] (some ['f']) false) ⟨10, 10⟩ ['x']
    (by decide)).2.2.1

/-! ### Claim C9 -/

theorem searchMatchStep_esc (v : View) (e : SearchEvent) (v1 : View)
    (h : v.searchMatchStep e = (v1, some SearchExit.esc)) :
    v1.cursor_position = v.search.previous_position ∧
    v1.screen_offset = v.search.previous_offset := by
  cases e <;>
    simp only [View.searchMatchStep, View.revert_screen_state,
      SearchState.clean_up_search, Prod.mk.injEq] at h
  case ctrlN =>
    split at h <;> simp at h
  case ctrlP =>
    split at h <;> simp at h
  case newChar c => simp at h
  case backspace =>
    split at h <;> simp at h
  case esc =>
    rw [← h.1]
    exact ⟨rfl, rfl⟩
  case enter => simp at h
  case resizeEv s => simp at h
  case other => simp at h

theorem searchMatchStep_prev (v : View) (e : SearchEvent) :
    (v.searchMatchStep e).1.search.previous_position =
        v.search.previous_position ∧
      (v.searchMatchStep e).1.search.previous_offset =
        v.search.previous_offset := by
  cases e <;>
    simp only [View.searchMatchStep, View.revert_screen_state,
      SearchState.clean_up_search, SearchState.set_line_indicies, View.resize,
      View.handle_offset_screen_snap] <;>
    try (split <;> simp)
  all_goals simp

theorem searchPost_prev (v : View) :
    (v.searchPost).search.previous_position = v.search.previous_position ∧
      (v.searchPost).search.previous_offset = v.search.previous_offset := by
  unfold View.searchPost
  split
  · exact ⟨rfl, rfl⟩
  · split
    · exact ⟨rfl, rfl⟩
    · simp only
      split <;> simp [View.handle_offset_screen_snap, View.revert_screen_state]

theorem searchLoop_esc (evs : List SearchEvent) : ∀ v : View,
    (v.searchLoop evs).2 = some SearchExit.esc →
    (v.searchLoop evs).1.cursor_position = v.search.previous_position ∧
    (v.searchLoop evs).1.screen_offset = v.search.previous_offset := by
  induction evs with
  | nil =>
    intro v h
    simp [View.searchLoop] at h
  | cons e rest ih =>
    intro v h
    rw [View.searchLoop] at h ⊢
    cases hstep : v.searchMatchStep e with
    | mk v1 exitS =>
      rw [hstep] at h
      cases exitS with
      | some x =>
        dsimp only at h ⊢
        have hx : x = SearchExit.esc := by
          cases x
          · rfl
          · simp at h
        subst hx
        have hesc := searchMatchStep_esc v e v1 hstep
        exact ⟨hesc.1, hesc.2⟩
      | none =>
        dsimp only at h ⊢
        have hres := ih v1.searchPost h
        have hp1 := searchPost_prev v1
        have hp2 : v1.search.previous_position = v.search.previous_position ∧
            v1.search.previous_offset = v.search.previous_offset := by
          have hmp := searchMatchStep_prev v e
          rw [hstep] at hmp
          exact hmp
        rw [hres.1, hres.2, hp1.1, hp1.2, hp2.1, hp2.2]
        exact ⟨rfl, rfl⟩

/-- C9: when the incremental search exits via Escape, the cursor and screen
offset are restored exactly to the values saved at search entry, whatever
the query typed or matches visited during the search. -/
theorem claim_C9_search_esc_restores (v : View) (evs : List SearchEvent)
    (h : (v.handle_search evs).2 = some SearchExit.esc) :
    (v.handle_search evs).1.cursor_position = v.cursor_position ∧
    (v.handle_search evs).1.screen_offset = v.screen_offset := by
  unfold View.handle_search at h ⊢
  exact searchLoop_esc evs _ h

/-- Witness for C9: a search session that is immediately escaped hands back
the entry cursor. -/
theorem claim_C9_witness :
    ((View.mk (Buffer.mk [Line.fromChars ['a', 'b']] none true) true ⟨7, 9⟩
          ⟨1, 2⟩ ⟨1, 0⟩ false SearchState.default).handle_search
        [SearchEvent.esc]).1.cursor_position = ⟨1, 2⟩ :=
  (claim_C9_search_esc_restores
    (View.mk (Buffer.mk [Line.fromChars ['a', 'b']] none true) true ⟨7, 9⟩
      ⟨1, 2⟩ ⟨1, 0⟩ false SearchState.default)
    [SearchEvent.esc] (by decide)).1

/-! ### Claim C1 -/

/-- C1 as stated is false: from the initial view (empty buffer, cursor and
offset at the origin, a 10×4 viewport), dispatching a single `Tab` command
reports `needs_redraw` but moves the cursor four columns right without any
offset adjustment, so `cursor.width < offset.width + size.width` fails. -/
theorem claim_C1_counterexample :
    ((View.mk (Buffer.mk [] none false) true ⟨10, 4⟩ ⟨0, 0⟩ ⟨0, 0⟩ false
          SearchState.default).handle_event EditorCommand.Tab).needs_redraw =
        true ∧
      ((View.mk (Buffer.mk [] none false) true ⟨10, 4⟩ ⟨0, 0⟩ ⟨0, 0⟩ false
          SearchState.default).handle_event EditorCommand.Tab).inView = false := by
  decide

/-- `handle_offset_screen_snap` re-establishes the viewport invariant from
any cursor/offset state, provided the viewport is at least 3 rows by 2
columns, neither the search bar nor the help bar is reserved, and the
cursor is on a buffer row. -/
theorem snap_inView (v : View)
    (hsh : 3 ≤ v.size.height) (hsw : 2 ≤ v.size.width)
    (hsearch : v.search.render_search = false)
    (hhelp : v.render_help = false)
    (hcur : v.cursor_position.height < v.buffer.text.length) :
    (v.handle_offset_screen_snap).inView = true := by
  simp only [View.handle_offset_screen_snap, View.inView, hsearch, hhelp]
  simp only [Bool.or_self, Bool.false_eq_true, if_false, Bool.and_eq_true,
    decide_eq_true_eq]
  split_ifs <;> omega

/-- `update_offset_single_move` lands the cursor in the viewport whenever
the cursor is at most one step past the window's far edges. -/
theorem single_move_inView (w : View)
    (hsh : 3 ≤ w.size.height) (hsw : 2 ≤ w.size.width)
    (hh : w.cursor_position.height ≤ w.screen_offset.height + w.size.height)
    (hw : w.cursor_position.width ≤ w.screen_offset.width + w.size.width) :
    (w.update_offset_single_move).inView = true := by
  simp only [View.update_offset_single_move, View.inView, Bool.and_eq_true,
    decide_eq_true_eq]
  split_ifs <;> omega

theorem inView_needs_redraw (w : View) (b : Bool) :
    ({ w with needs_redraw := b } : View).inView = w.inView := rfl

/-- `move_cursor` preserves the viewport invariant under the same side
conditions. -/
theorem move_inView (v : View) (d : Direction)
    (hsh : 3 ≤ v.size.height) (hsw : 2 ≤ v.size.width)
    (hsearch : v.search.render_search = false)
    (hhelp : v.render_help = false)
    (hcur : v.cursor_position.height < v.buffer.text.length)
    (hinv : v.inView = true) :
    (v.move_cursor d).inView = true := by
  have hne : v.buffer.text.isEmpty = false := by
    cases htext : v.buffer.text with
    | nil => rw [htext] at hcur; simp at hcur
    | cons a as => simp
  simp only [View.inView, Bool.and_eq_true, decide_eq_true_eq] at hinv
  obtain ⟨⟨⟨i1, i2⟩, i3⟩, i4⟩ := hinv
  simp only [View.move_cursor, hne]
  cases d with
  | Down =>
    simp only [Bool.false_eq_true, if_false]
    rw [inView_needs_redraw]
    exact single_move_inView _ hsh hsw (by (try dsimp only); omega)
      (by (try dsimp only); omega)
  | Up =>
    simp only [Bool.false_eq_true, if_false]
    rw [inView_needs_redraw]
    exact single_move_inView _ hsh hsw (by (try dsimp only); omega)
      (by (try dsimp only); omega)
  | Left =>
    by_cases hL : v.cursor_position.width = 0 ∧ v.cursor_position.height > 0
    · rw [if_pos hL]
      simp only [eq_self_iff_true, if_true]
      rw [inView_needs_redraw]
      exact snap_inView _ hsh hsw hsearch hhelp (by (try dsimp only); omega)
    · rw [if_neg hL]
      simp only [Bool.false_eq_true, if_false]
      rw [inView_needs_redraw]
      exact single_move_inView _ hsh hsw (by (try dsimp only); omega)
        (by (try dsimp only); omega)
  | Right =>
    by_cases hR : v.cursor_position.width =
        (v.buffer.text.getD v.cursor_position.height default).grapheme_len ∧
        v.cursor_position.height < v.buffer.text.length - 1
    · rw [if_pos hR]
      simp only [eq_self_iff_true, if_true]
      rw [inView_needs_redraw]
      exact snap_inView _ hsh hsw hsearch hhelp (by (try dsimp only); omega)
    · rw [if_neg hR]
      simp only [Bool.false_eq_true, if_false]
      rw [inView_needs_redraw]
      exact single_move_inView _ hsh hsw (by (try dsimp only); omega)
        (by (try dsimp only); omega)
  | PageDown =>
    simp only [eq_self_iff_true, if_true]
    rw [inView_needs_redraw]
    exact snap_inView _ hsh hsw hsearch hhelp (by (try dsimp only); omega)
  | PageUp =>
    simp only [eq_self_iff_true, if_true]
    rw [inView_needs_redraw]
    exact snap_inView _ hsh hsw hsearch hhelp (by (try dsimp only); omega)
  | End =>
    simp only [eq_self_iff_true, if_true]
    rw [inView_needs_redraw]
    exact snap_inView _ hsh hsw hsearch hhelp (by (try dsimp only); omega)
  | Home =>
    simp only [eq_self_iff_true, if_true]
    rw [inView_needs_redraw]
    exact snap_inView _ hsh hsw hsearch hhelp (by (try dsimp only); omega)

/-- C1 (amended): for cursor-move and resize dispatches the invariant does
hold — after `handle_event` on a `Move` (with the invariant holding before
the move) or on a `Resize` to a viewport of at least 3 rows × 2 columns
(from any prior cursor/offset state, the invariant not assumed),
`needs_redraw` is reported and the cursor is inside the viewport — provided
the viewport is at least 3×2, neither the search bar nor the help bar is
up, and the cursor is on a buffer row.  Edit dispatches (`Tab`, `Insert`)
are excluded: the counterexample shows `Tab` breaks the invariant. -/
theorem claim_C1_amended_viewport (v : View) (cmd : EditorCommand)
    (hcmd : match cmd with
      | .Move _ => v.inView = true
      | .Resize s => 3 ≤ s.height ∧ 2 ≤ s.width
      | _ => False)
    (hsh : 3 ≤ v.size.height) (hsw : 2 ≤ v.size.width)
    (hsearch : v.search.render_search = false)
    (hhelp : v.render_help = false)
    (hcur : v.cursor_position.height < v.buffer.text.length) :
    (v.handle_event cmd).needs_redraw = true ∧
      (v.handle_event cmd).inView = true := by
  cases cmd with
  | Move d =>
    refine ⟨rfl, ?_⟩
    show ({ v.move_cursor d with needs_redraw := true } : View).inView = true
    rw [inView_needs_redraw]
    exact move_inView v d hsh hsw hsearch hhelp hcur hcmd
  | Resize s =>
    obtain ⟨h1, h2⟩ := hcmd
    refine ⟨rfl, ?_⟩
    show ({ v.resize s with needs_redraw := true } : View).inView = true
    rw [inView_needs_redraw]
    unfold View.resize
    exact snap_inView _ h1 h2 hsearch hhelp hcur
  | Tab => exact hcmd.elim
  | Insert c => exact hcmd.elim

/-- Witness for C1 (amended): a Move Right dispatch on a concrete in-view
state keeps the cursor in view and reports a redraw. -/
theorem claim_C1_witness :
    ((View.mk (Buffer.mk [Line.fromChars ['a', 'b']] none true) true ⟨3, 2⟩
          ⟨0, 0⟩ ⟨0, 0⟩ false SearchState.default).handle_event
        (EditorCommand.Move Direction.Right)).needs_redraw = true ∧
      ((View.mk (Buffer.mk [Line.fromChars ['a', 'b']] none true) true ⟨3, 2⟩
          ⟨0, 0⟩ ⟨0, 0⟩ false SearchState.default).handle_event
        (EditorCommand.Move Direction.Right)).inView = true :=
  claim_C1_amended_viewport
    (View.mk (Buffer.mk [Line.fromChars ['a', 'b']] none true) true ⟨3, 2⟩
      ⟨0, 0⟩ ⟨0, 0⟩ false SearchState.default)
    (EditorCommand.Move Direction.Right) (by decide) (by decide) (by decide)
    (by decide) (by decide) (by decide)

end TextEditor
